import Mathlib

/-!
Shallow embedding of the Redis-backed cache handler (`cache-handler.cjs`)
of the basechat repository, together with theorems settling the claims of
its specification.

Modelling conventions:
* Machine state is a `World`: the handler's connection flags, a ghost
  counter of underlying connect attempts, a primitive-operation counter
  (`tick`), and the Redis store contents.
* Redis keys map to slots carrying a value (a string holding a serialized
  cache entry, or a set of member keys) and an optional absolute expiry
  time; a slot whose expiry is in the past behaves as absent, as in Redis.
* Failures are injected by a fault oracle `F : Nat → Bool` consulted at
  each primitive store interaction (indexed by `tick`); a faulted
  primitive raises an exception (`Except.error`), which the translated
  `try`/`catch` blocks of the source handle exactly where the source does.
  A connect primitive whose oracle entry is `true` models a connection
  attempt that fails after the client's bounded internal retries.
* Serialization (`JSON.stringify` / `JSON.parse`) is modelled as the
  identity on structured entries, but both are primitives that can fault.
* `Date.now()` and Redis `EX` seconds are drawn from one abstract clock:
  each operation takes the current time `now`, and `SET ... EX t` /
  `EXPIRE k t` record the absolute expiry `now + t`.
-/

deriving instance DecidableEq for Except

namespace Basechat

abbrev Key := String

/-- Source: `const DEFAULT_TTL = 84600; // 24 hours`. -/
def DEFAULT_TTL : Int := 84600

/-- Source: `const CACHE_KEY_PREFIX = "basechat:"`. -/
def CACHE_KEY_PFX : Key := "basechat:"

/-- Source: `const TAG_INDEX_PREFIX = "basechat:tags:"`. -/
def TAG_INDEX_PFX : Key := "basechat:tags:"

/-- The JavaScript `data.revalidate` field: a number, some non-numeric
value, or absent (`typeof data.revalidate === "number"` distinguishes
exactly the `num` case). -/
inductive RevalidateField where
  | num (n : Int)
  | nonNum
  | absent
deriving DecidableEq, Repr

/-- The `data` argument of `set`: an opaque payload plus the `revalidate`
field the handler inspects. -/
structure CacheData where
  payload : String
  revalidate : RevalidateField
deriving DecidableEq, Repr

/-- Source (`set`): `typeof data.revalidate === "number" ? data.revalidate
: DEFAULT_TTL` — the effective TTL. -/
def resolvedTTL (d : CacheData) : Int :=
  match d.revalidate with
  | .num n => n
  | .nonNum => DEFAULT_TTL
  | .absent => DEFAULT_TTL

/-- Source (`set`): `fixedData = { ...data, revalidate: typeof
data.revalidate === "number" ? data.revalidate : DEFAULT_TTL }`. -/
def fixData (d : CacheData) : CacheData :=
  { d with revalidate := .num (resolvedTTL d) }

/-- The `ctx.tags` argument: a bare string or an array of strings. -/
inductive TagsField where
  | one (t : String)
  | many (ts : List String)
deriving DecidableEq, Repr

/-- Source: `Array.isArray(ctx.tags) ? ctx.tags : [ctx.tags]` (same
normalization in `revalidateTag` for its argument). -/
def normalizeTags : TagsField → List String
  | .one t => [t]
  | .many ts => ts

/-- Source (`set`): `cacheEntry = { value: fixedData, lastModified:
Date.now(), tags: fixedCtx.tags }`. -/
structure CacheEntry where
  value : CacheData
  lastModified : Int
  tags : List String
deriving DecidableEq, Repr

/-- A Redis value: a string (holding a serialized cache entry) or a set
of member keys. -/
inductive RVal where
  | str (e : CacheEntry)
  | sset (ms : List Key)
deriving DecidableEq, Repr

/-- A stored Redis slot: value plus optional absolute expiry time. -/
structure Slot where
  val : RVal
  expireAt : Option Int
deriving DecidableEq, Repr

abbrev StoreMap := Key → Option Slot

/-- A slot is live at `now` when it has no expiry or its expiry is still
in the future. -/
def Slot.live (now : Int) (sl : Slot) : Bool :=
  match sl.expireAt with
  | none => true
  | some e => decide (now < e)

/-- Read a slot, treating an expired slot as absent (Redis lazy expiry). -/
def liveSlot (now : Int) (s : StoreMap) (k : Key) : Option Slot :=
  match s k with
  | none => none
  | some sl => if sl.live now then some sl else none

/-- Read a live value at a key. -/
def liveRead (now : Int) (s : StoreMap) (k : Key) : Option RVal :=
  (liveSlot now s k).map Slot.val

/-- Pointwise store update. -/
def updateStore (s : StoreMap) (k : Key) (v : Option Slot) : StoreMap :=
  fun k' => if k' = k then v else s k'

/-- The Redis commands the handler queues in `multi` pipelines. -/
inductive Cmd where
  | sAdd (k m : Key)
  | expire (k : Key) (ttl : Int)
  | del (k : Key)
deriving DecidableEq, Repr

/-- Redis semantics of one queued command. `SADD` on a live set adds the
member keeping the expiry, creates a fresh set with no expiry when the key
is absent or expired, and is a per-command type error (no effect, the rest
of the pipeline still runs) on a live string. `EXPIRE` on an absent key is
a no-op; with a non-positive ttl it deletes the key. -/
def applyCmd (now : Int) (s : StoreMap) : Cmd → StoreMap
  | .sAdd k m =>
    match liveSlot now s k with
    | some ⟨.sset ms, e⟩ =>
        updateStore s k (some ⟨.sset (if m ∈ ms then ms else ms ++ [m]), e⟩)
    | some ⟨.str _, _⟩ => s
    | none => updateStore s k (some ⟨.sset [m], none⟩)
  | .expire k ttl =>
    match liveSlot now s k with
    | none => s
    | some sl =>
        if ttl ≤ 0 then updateStore s k none
        else updateStore s k (some ⟨sl.val, some (now + ttl)⟩)
  | .del k => updateStore s k none

/-- Execute a queued pipeline in order. -/
def applyCmds (now : Int) : List Cmd → StoreMap → StoreMap
  | [], s => s
  | c :: cs, s => applyCmds now cs (applyCmd now s c)

/-- Process state of the handler plus the Redis store contents.
`attempts` is a ghost counter of underlying `redisClient.connect()`
invocations; `tick` indexes primitive store interactions for the fault
oracle. -/
structure World where
  hasClient : Bool
  isConnected : Bool
  attempts : Nat
  tick : Nat
  store : StoreMap

/-- Fault oracle: which primitive invocations fail. -/
abbrev Faults := Nat → Bool

/-- The oracle under which no store interaction fails. -/
def noFaults : Faults := fun _ => false

/-- A thrown JavaScript exception / rejected promise. -/
inductive Err where
  | exc
deriving DecidableEq, Repr

/-- Source: `getTagIndexKey(tag) { return
TAG_INDEX_PREFIX + tag; }`. -/
def getTagIndexKey (tag : String) : Key := TAG_INDEX_PFX ++ tag

/-- Source (`get`/`set`): `prefixedKey = CACHE_KEY_PREFIX + key`. -/
def entryKey (key : Key) : Key := CACHE_KEY_PFX ++ key

/-- Source: `ensureConnected()`. Sequential (single-caller) semantics: no
client means `false`; already connected means `true`; otherwise one
underlying `redisClient.connect()` attempt is made (its internal
reconnection retries are bounded by `reconnectStrategy`), whose outcome
the fault oracle decides; the internal `catch` converts a failed attempt
to `false`, and `finally` clears the shared promise, so nothing is
recorded that would stop a later call from attempting again. -/
def ensureConnected (F : Faults) (w : World) : Bool × World :=
  if !w.hasClient then (false, w)
  else if w.isConnected then (true, w)
  else
    if F w.tick then
      (false, { w with attempts := w.attempts + 1, tick := w.tick + 1,
                       isConnected := false })
    else
      (true, { w with attempts := w.attempts + 1, tick := w.tick + 1,
                      isConnected := true })

/-- The translated `catch` of the source: an exception from the body is
swallowed and the default is returned; the state reached so far persists. -/
def catchDefault {α : Type} (body : Except Err α × World) (dflt : α) :
    Except Err α × World :=
  match body with
  | (.error _, w) => (.ok dflt, w)
  | (.ok a, w) => (.ok a, w)

/-- Body of the `try` block of `get(key)`: ensure the connection, read
the prefixed key (a primitive that can fault, and a `WRONGTYPE` error if
the live value is a set), return `undefined` on no data, else
`JSON.parse` it (a primitive that can fault). -/
def getBody (F : Faults) (now : Int) (w : World) (key : Key) :
    Except Err (Option CacheEntry) × World :=
  let prefixedKey := entryKey key
  match ensureConnected F w with
  | (false, w1) => (.ok none, w1)
  | (true, w1) =>
    if F w1.tick then (.error .exc, { w1 with tick := w1.tick + 1 })
    else
      let w2 := { w1 with tick := w1.tick + 1 }
      match liveRead now w2.store prefixedKey with
      | none => (.ok none, w2)
      | some (.sset _) => (.error .exc, w2)
      | some (.str e) =>
        if F w2.tick then (.error .exc, { w2 with tick := w2.tick + 1 })
        else (.ok (some e), { w2 with tick := w2.tick + 1 })

/-- Source: `async get(key)` — the `try` body wrapped by the `catch` that
returns `undefined`. -/
def get (F : Faults) (now : Int) (w : World) (key : Key) :
    Except Err (Option CacheEntry) × World :=
  catchDefault (getBody F now w key) none

/-- The tag-index pipeline of `set`: for each tag, `sAdd(tagIndexKey,
prefixedKey)` then `expire(tagIndexKey, fixedData.revalidate)`. -/
def tagCmds (prefixedKey : Key) (ttl : Int) : List String → List Cmd
  | [] => []
  | t :: ts =>
      .sAdd (getTagIndexKey t) prefixedKey ::
      .expire (getTagIndexKey t) ttl ::
      tagCmds prefixedKey ttl ts

/-- Body of the `try` block of `set(key, data, ctx)`: ensure the
connection, build the entry envelope, `JSON.stringify` it (can fault),
`SET prefixedKey serialized EX ttl` (can fault; a non-positive `EX` is a
Redis `invalid expire time` error), then queue and `exec` the tag-index
pipeline (the `exec` round trip can fault). -/
def setBody (F : Faults) (now : Int) (w : World) (key : Key)
    (d : CacheData) (ctx : TagsField) : Except Err Unit × World :=
  let prefixedKey := entryKey key
  let fixedTags := normalizeTags ctx
  match ensureConnected F w with
  | (false, w1) => (.ok (), w1)
  | (true, w1) =>
    let cacheEntry : CacheEntry := ⟨fixData d, now, fixedTags⟩
    if F w1.tick then (.error .exc, { w1 with tick := w1.tick + 1 })
    else
      let w2 := { w1 with tick := w1.tick + 1 }
      if F w2.tick then (.error .exc, { w2 with tick := w2.tick + 1 })
      else
        let w3 := { w2 with tick := w2.tick + 1 }
        if resolvedTTL d ≤ 0 then (.error .exc, w3)
        else
          let s1 := updateStore w3.store prefixedKey
            (some ⟨.str cacheEntry, some (now + resolvedTTL d)⟩)
          let w4 := { w3 with store := s1 }
          if F w4.tick then (.error .exc, { w4 with tick := w4.tick + 1 })
          else
            let s2 := applyCmds now
              (tagCmds prefixedKey (resolvedTTL d) fixedTags) w4.store
            (.ok (), { w4 with tick := w4.tick + 1, store := s2 })

/-- Source: `async set(key, data, ctx)` — `fixedCtx`/`fixedData` are
computed before the `try`; the body is wrapped by a `catch` returning
`undefined`. -/
def set (F : Faults) (now : Int) (w : World) (key : Key) (d : CacheData)
    (ctx : TagsField) : Except Err Unit × World :=
  catchDefault (setBody F now w key d ctx) ()

/-- The `for (const tag of tagArray)` loop of `revalidateTag`:
`sMembers(tagIndexKey)` (can fault; `WRONGTYPE` on a live string), skip
when empty, else one pipeline deleting every member and the index key.
The whole loop sits inside one `try`, so an exception propagates out of
the recursion. -/
def revalidateLoop (F : Faults) (now : Int) :
    List String → World → Except Err Unit × World
  | [], w => (.ok (), w)
  | tag :: rest, w =>
    let tagIndexKey := getTagIndexKey tag
    if F w.tick then (.error .exc, { w with tick := w.tick + 1 })
    else
      let w1 := { w with tick := w.tick + 1 }
      match liveRead now w1.store tagIndexKey with
      | some (.str _) => (.error .exc, w1)
      | none => revalidateLoop F now rest w1
      | some (.sset ms) =>
        if ms.isEmpty then revalidateLoop F now rest w1
        else
          if F w1.tick then (.error .exc, { w1 with tick := w1.tick + 1 })
          else
            let s2 := applyCmds now
              (ms.map Cmd.del ++ [Cmd.del tagIndexKey]) w1.store
            revalidateLoop F now rest
              { w1 with tick := w1.tick + 1, store := s2 }

/-- Body of the `try` block of `revalidateTag(tags)`. -/
def revalidateBody (F : Faults) (now : Int) (w : World)
    (tags : TagsField) : Except Err Unit × World :=
  match ensureConnected F w with
  | (false, w1) => (.ok (), w1)
  | (true, w1) => revalidateLoop F now (normalizeTags tags) w1

/-- Source: `async revalidateTag(tags)` — the body wrapped by a `catch`
returning `undefined`. -/
def revalidateTag (F : Faults) (now : Int) (w : World)
    (tags : TagsField) : Except Err Unit × World :=
  catchDefault (revalidateBody F now w tags) ()

/-!
Single-flight model of `ensureConnected` for concurrent callers. Each
caller's entry runs the synchronous prologue of `ensureConnected`
atomically (JavaScript runs an async function synchronously up to its
first `await`, and the async IIFE starts the underlying connect and is
assigned to `this.connectionPromise` within that same synchronous
segment). `connectionPromise` holds the id of the in-flight attempt;
`attempts` counts underlying `redisClient.connect()` invocations.
-/

/-- Handler connection state shared by concurrent callers. -/
structure ConnState where
  hasClient : Bool
  isConnected : Bool
  connectionPromise : Option Nat
  attempts : Nat
deriving DecidableEq, Repr

/-- What one caller holds after its synchronous entry: an immediate
boolean result, or the id of the attempt it awaits. -/
inductive CallerRes where
  | done (b : Bool)
  | awaiting (id : Nat)
deriving DecidableEq, Repr

/-- The synchronous prologue of `ensureConnected()`: no client returns
`false`; connected returns `true`; an in-flight `connectionPromise` is
returned to be awaited; otherwise the caller starts the one underlying
connect attempt and publishes its promise. -/
def ensureConnectedEntry (s : ConnState) : ConnState × CallerRes :=
  if !s.hasClient then (s, .done false)
  else if s.isConnected then (s, .done true)
  else
    match s.connectionPromise with
    | some p => (s, .awaiting p)
    | none =>
        ({ s with connectionPromise := some s.attempts,
                  attempts := s.attempts + 1 },
         .awaiting s.attempts)

/-- Run the entries of `n` concurrent callers, all before the attempt
completes (an interleaving of atomic identical entries is a sequence). -/
def runCallers : Nat → ConnState → ConnState × List CallerRes
  | 0, s => (s, [])
  | n + 1, s =>
    let p := ensureConnectedEntry s
    let q := runCallers n p.1
    (q.1, p.2 :: q.2)

/-- Once the single attempt completes with outcome `b`, a caller awaiting
it resolves to `b`; a caller that resolved immediately keeps its value. -/
def resolveOutcome (b : Bool) : CallerRes → Bool
  | .done v => v
  | .awaiting _ => b

/-- Initial state: a client exists, no connection, no in-flight attempt. -/
def initialConn : ConnState := ⟨true, false, none, 0⟩

/-! Concrete worlds and inputs used by witnesses and counterexamples. -/

/-- The empty Redis store. -/
def emptyStore : StoreMap := fun _ => none

/-- A connected handler over an empty store. -/
def w0 : World := ⟨true, true, 0, 0, emptyStore⟩

/-- A handler with a client but no established connection. -/
def wNC : World := ⟨true, false, 0, 0, emptyStore⟩

/-- The oracle under which every store interaction fails. -/
def allFaults : Faults := fun _ => true

/-- The oracle failing exactly the first primitive operation. -/
def faultAt0 : Faults := fun n => n == 0

/-- A payload whose `revalidate` field is absent. -/
def dAbs : CacheData := ⟨"v", .absent⟩

/-! Basic lemmas about the embedding. -/

theorem updateStore_eq (s : StoreMap) (k : Key) (v : Option Slot) :
    updateStore s k v k = v := by
  simp [updateStore]

theorem updateStore_ne (s : StoreMap) (k k' : Key) (v : Option Slot)
    (h : k' ≠ k) : updateStore s k v k' = s k' := by
  simp [updateStore, h]

theorem catchDefault_isOk {α : Type} (body : Except Err α × World)
    (dflt : α) : ∃ a, (catchDefault body dflt).1 = .ok a := by
  rcases body with ⟨r, w⟩
  cases r with
  | error e => exact ⟨dflt, rfl⟩
  | ok a => exact ⟨a, rfl⟩

theorem catchDefault_unit (body : Except Err Unit × World) :
    (catchDefault body ()).1 = .ok () := by
  rcases body with ⟨r, w⟩
  cases r with
  | error e => rfl
  | ok a => cases a; rfl

theorem ensureConnected_conn (F : Faults) (w : World)
    (hcl : w.hasClient = true) (hco : w.isConnected = true) :
    ensureConnected F w = (true, w) := by
  simp [ensureConnected, hcl, hco]

/-!
Claim theorems start here.
-/

/-- C3: `get`, `set`, and `revalidateTag` never surface an error to the
caller: for every fault pattern, connection state, store contents and
inputs, `get` resolves to a value (absent on any failure) and `set` and
`revalidateTag` resolve normally, because each operation's body is
wrapped in a catch that swallows the exception. -/
theorem ops_never_throw (F : Faults) (now : Int) (w : World) (key : Key)
    (d : CacheData) (ctx ts : TagsField) :
    (∃ r, (get F now w key).1 = .ok r) ∧
    (set F now w key d ctx).1 = .ok () ∧
    (revalidateTag F now w ts).1 = .ok () := by
  refine ⟨?_, ?_, ?_⟩
  · exact catchDefault_isOk (getBody F now w key) none
  · exact catchDefault_unit (setBody F now w key d ctx)
  · exact catchDefault_unit (revalidateBody F now w ts)

/-- C9: the entry namespace and the tag-index namespace overlap: the
store key of the cache entry for caller-supplied key `"tags:" ++ t`
equals the store key of the tag index for `t`, for every tag `t`. -/
theorem namespace_overlap (t : String) :
    entryKey ("tags:" ++ t) = getTagIndexKey t := by
  apply String.ext
  simp only [entryKey, getTagIndexKey, CACHE_KEY_PFX, TAG_INDEX_PFX,
    String.data_append]
  rw [← List.append_assoc]
  have h : "basechat:".data ++ "tags:".data = "basechat:tags:".data := by
    decide
  rw [h]

/-- After the first caller's entry, the state is stable for later
callers: they all join attempt `0`. -/
theorem runCallers_stable (k : Nat) :
    runCallers k ⟨true, false, some 0, 1⟩ =
      (⟨true, false, some 0, 1⟩, List.replicate k (.awaiting 0)) := by
  induction k with
  | zero => rfl
  | succ n ih =>
      simp [runCallers, ensureConnectedEntry, ih, List.replicate]

/-- C8: when `n ≥ 1` callers invoke the connect path concurrently before
any connection exists, exactly one underlying connect attempt is started,
every caller awaits that one attempt, and once it completes all callers
resolve with its outcome. -/
theorem single_flight (n : Nat) (h : 1 ≤ n) :
    (runCallers n initialConn).2.length = n ∧
    (runCallers n initialConn).1.attempts = 1 ∧
    (∀ r ∈ (runCallers n initialConn).2, r = .awaiting 0) ∧
    (∀ (b : Bool), ∀ r ∈ (runCallers n initialConn).2,
      resolveOutcome b r = b) := by
  obtain ⟨m, rfl⟩ : ∃ m, n = m + 1 := ⟨n - 1, (Nat.succ_pred_eq_of_pos h).symm⟩
  have hrun : runCallers (m + 1) initialConn =
      (⟨true, false, some 0, 1⟩, .awaiting 0 :: List.replicate m (.awaiting 0)) := by
    simp [runCallers, initialConn, ensureConnectedEntry, runCallers_stable]
  refine ⟨?_, ?_, ?_, ?_⟩
  · simp [hrun]
  · simp [hrun]
  · intro r hr
    rw [hrun] at hr
    rcases List.mem_cons.mp hr with h1 | h1
    · exact h1
    · exact List.eq_of_mem_replicate h1
  · intro b r hr
    rw [hrun] at hr
    rcases List.mem_cons.mp hr with h1 | h1
    · rw [h1]; rfl
    · rw [List.eq_of_mem_replicate h1]; rfl

/-- Witness for C8 at three concurrent callers. -/
theorem single_flight_witness :
    1 ≤ 3 ∧
    ((runCallers 3 initialConn).2.length = 3 ∧
     (runCallers 3 initialConn).1.attempts = 1 ∧
     (∀ r ∈ (runCallers 3 initialConn).2, r = .awaiting 0) ∧
     (∀ (b : Bool), ∀ r ∈ (runCallers 3 initialConn).2,
       resolveOutcome b r = b)) :=
  ⟨by decide, single_flight 3 (by decide)⟩

/-- World after a first `get` whose connect attempt failed (ceiling
exceeded within that attempt). -/
def wFail1 : World := (get allFaults 0 wNC "k").2

/-- World after a further `set` on `wFail1`, whose own connect attempt
failed as well. -/
def wFail2 : World := (set allFaults 0 wFail1 "k" dAbs (.one "t")).2

/-- C4 counterexample: with every connect attempt failing (each attempt
exhausts the client's bounded retries, exceeding the ceiling), the first
`get` performs attempt 1 and returns a miss — but then a `set` performs
a further underlying connection attempt (attempts becomes 2) and a
`revalidateTag` yet another (attempts becomes 3), contradicting the
claim that after the ceiling is exceeded no further underlying
connection attempts are ever made by subsequent
`get`/`set`/`revalidateTag` calls. -/
theorem retry_ceiling_cex :
    (get allFaults 0 wNC "k").1 = .ok none ∧
    wFail1.attempts = 1 ∧
    (set allFaults 0 wFail1 "k" dAbs (.one "t")).1 = .ok () ∧
    wFail2.attempts = 2 ∧
    (revalidateTag allFaults 0 wFail2 (.one "t")).1 = .ok () ∧
    (revalidateTag allFaults 0 wFail2 (.one "t")).2.attempts = 3 := by
  decide

/-- C4 amended: a failed connection attempt does not disable the handler.
Whenever the handler has a client, is not connected, and the attempt made
by this call fails, the call returns miss/no-op semantics (`get` a miss,
`set` and `revalidateTag` resolving normally having done nothing) — but
each of the three operations performs a fresh underlying connection
attempt (the attempt counter increases), because the `finally` clause
clears `connectionPromise` and nothing records a terminal disabled
state. -/
theorem retry_not_terminal (F : Faults) (now : Int) (w : World)
    (key : Key) (d : CacheData) (ctx ts : TagsField)
    (hcl : w.hasClient = true) (hnc : w.isConnected = false)
    (hf : F w.tick = true) :
    ((get F now w key).1 = .ok none ∧
     (get F now w key).2.attempts = w.attempts + 1) ∧
    ((set F now w key d ctx).1 = .ok () ∧
     (set F now w key d ctx).2.attempts = w.attempts + 1) ∧
    ((revalidateTag F now w ts).1 = .ok () ∧
     (revalidateTag F now w ts).2.attempts = w.attempts + 1) := by
  refine ⟨?_, ?_, ?_⟩
  · simp [get, getBody, ensureConnected, catchDefault, hcl, hnc, hf]
  · simp [set, setBody, ensureConnected, catchDefault, hcl, hnc, hf]
  · simp [revalidateTag, revalidateBody, ensureConnected, catchDefault,
      hcl, hnc, hf]

/-- Witness for C4 amended at a concrete disconnected world, covering
all three operations. -/
theorem retry_not_terminal_witness :
    wNC.hasClient = true ∧ wNC.isConnected = false ∧
    allFaults wNC.tick = true ∧
    (((get allFaults 5 wNC "x").1 = .ok none ∧
      (get allFaults 5 wNC "x").2.attempts = wNC.attempts + 1) ∧
     ((set allFaults 5 wNC "x" dAbs (.one "t")).1 = .ok () ∧
      (set allFaults 5 wNC "x" dAbs (.one "t")).2.attempts =
        wNC.attempts + 1) ∧
     ((revalidateTag allFaults 5 wNC (.one "t")).1 = .ok () ∧
      (revalidateTag allFaults 5 wNC (.one "t")).2.attempts =
        wNC.attempts + 1)) :=
  ⟨rfl, rfl, rfl,
    retry_not_terminal allFaults 5 wNC "x" dAbs (.one "t") (.one "t")
      rfl rfl rfl⟩

/-- C1 counterexample: with `data.revalidate` absent, `set` then `get`
returns an entry whose value is NOT the payload `v` that was passed: its
`revalidate` field has been replaced by `DEFAULT_TTL` (the stored value
is `fixedData`, not `data`). Additionally, with `data.revalidate` the
number `0`, `set`-then-`get` returns absent entirely (the Redis `SET ...
EX 0` fails), not an entry carrying `v`. -/
theorem set_get_cex :
    (get noFaults 0 (set noFaults 0 w0 "k" dAbs (.one "t")).2 "k").1 =
      .ok (some ⟨⟨"v", .num 84600⟩, 0, ["t"]⟩) ∧
    (⟨"v", .num 84600⟩ : CacheData) ≠ dAbs ∧
    (get noFaults 0
      (set noFaults 0 w0 "k" ⟨"v", .num 0⟩ (.one "t")).2 "k").1 =
      .ok none := by
  decide

/-- World after `set("k1", {revalidate: 2}, {tags: "t"})` at time 0. -/
def wA : World := (set noFaults 0 w0 "k1" ⟨"p", .num 2⟩ (.one "t")).2

/-- World after a further `set("k2", {revalidate: 1}, {tags: "t"})` at
time 0: the shared tag index of `"t"` now expires at time 1 although the
entry for `k1` lives until time 2. -/
def wB : World := (set noFaults 0 wA "k2" ⟨"p", .num 1⟩ (.one "t")).2

/-- C2 counterexample: `k1` was set with tag `"t"` (and is still live at
time 1), but `revalidateTag("t")` at time 1 finds the tag index already
expired (its expiry was refreshed down to 1 by the later shorter-lived
`set` of `k2`), deletes nothing, and the subsequent `get("k1")` still
returns the entry instead of absent. -/
theorem revalidate_tag_cex :
    wB.store (entryKey "k1") =
      some ⟨.str ⟨⟨"p", .num 2⟩, 0, ["t"]⟩, some 2⟩ ∧
    (revalidateTag noFaults 1 wB (.one "t")).1 = .ok () ∧
    (get noFaults 1 (revalidateTag noFaults 1 wB (.one "t")).2 "k1").1 =
      .ok (some ⟨⟨"p", .num 2⟩, 0, ["t"]⟩) ∧
    (get noFaults 1 (revalidateTag noFaults 1 wB (.one "t")).2 "k1").1 ≠
      .ok none := by
  decide

/-- C6 counterexample: after the two writes of `wB`, the tag index of
`"t"` expires at time 1 — strictly before time 2, the expiry of the
still-live entry `k1` that it indexes (the later `set` refreshed the
index expiry DOWN to its own shorter TTL). -/
theorem tag_index_expiry_cex :
    wB.store (getTagIndexKey "t") =
      some ⟨.sset ["basechat:k1", "basechat:k2"], some 1⟩ ∧
    wB.store (entryKey "k1") =
      some ⟨.str ⟨⟨"p", .num 2⟩, 0, ["t"]⟩, some 2⟩ ∧
    (1 : Int) < 2 := by
  decide

/-- A store holding two tagged entries and the two tag indices, used to
exhibit `revalidateTag`'s behavior under a mid-list failure. -/
def twoTagStore : StoreMap := fun k =>
  if k = "basechat:k1" then some ⟨.str ⟨⟨"a", .num 10⟩, 0, ["t1"]⟩, some 10⟩
  else if k = "basechat:k2" then
    some ⟨.str ⟨⟨"b", .num 10⟩, 0, ["t2"]⟩, some 10⟩
  else if k = "basechat:tags:t1" then
    some ⟨.sset ["basechat:k1"], some 10⟩
  else if k = "basechat:tags:t2" then
    some ⟨.sset ["basechat:k2"], some 10⟩
  else none

/-- A connected handler over `twoTagStore`. -/
def wTwoTags : World := ⟨true, true, 0, 0, twoTagStore⟩

/-- C5 counterexample: `revalidateTag(["t1", "t2"])` with the store
failing on the first command (the `sMembers` of `"t1"`) resolves
normally but aborts the whole loop: the members of `"t2"` are neither
read nor deleted — `k2` and the `"t2"` index survive untouched,
contradicting the claim that later tags are still processed. -/
theorem revalidate_abort_cex :
    (revalidateTag faultAt0 0 wTwoTags (.many ["t1", "t2"])).1 = .ok () ∧
    (revalidateTag faultAt0 0 wTwoTags (.many ["t1", "t2"])).2.store
      "basechat:k2" =
      some ⟨.str ⟨⟨"b", .num 10⟩, 0, ["t2"]⟩, some 10⟩ ∧
    (revalidateTag faultAt0 0 wTwoTags (.many ["t1", "t2"])).2.store
      "basechat:tags:t2" = some ⟨.sset ["basechat:k2"], some 10⟩ := by
  decide

/-- C7 counterexample: with `data.revalidate` the number `0` — not a
positive number — the code resolves the effective TTL to `0` rather than
the default `84600`, and the entry write then fails (invalid Redis
expiry), so the default TTL is not applied: no entry is stored at all. -/
theorem ttl_resolution_cex :
    resolvedTTL ⟨"p", .num 0⟩ = 0 ∧
    (0 : Int) ≠ DEFAULT_TTL ∧
    (set noFaults 0 w0 "k" ⟨"p", .num 0⟩ (.one "t")).1 = .ok () ∧
    (set noFaults 0 w0 "k" ⟨"p", .num 0⟩ (.one "t")).2.store
      (entryKey "k") = none := by
  decide

/-! Infrastructure lemmas for the general theorems. -/

/-- The store key a command addresses. -/
def Cmd.key : Cmd → Key
  | .sAdd k _ => k
  | .expire k _ => k
  | .del k => k

theorem ensureConnected_store (F : Faults) (w : World) :
    (ensureConnected F w).2.store = w.store := by
  cases hc : w.hasClient <;> cases hi : w.isConnected <;>
    cases hf : F w.tick <;> simp [ensureConnected, hc, hi, hf]

theorem ensureConnected_now_fields (F : Faults) (w : World) :
    (ensureConnected F w).2.hasClient = w.hasClient := by
  cases hc : w.hasClient <;> cases hi : w.isConnected <;>
    cases hf : F w.tick <;> simp [ensureConnected, hc, hi, hf]

theorem catchDefault_world {α : Type} (body : Except Err α × World)
    (dflt : α) : (catchDefault body dflt).2 = body.2 := by
  rcases body with ⟨r, w⟩
  cases r with
  | error e => rfl
  | ok a => rfl

theorem liveSlot_some {now : Int} {s : StoreMap} {k : Key} {sl : Slot}
    (h : liveSlot now s k = some sl) :
    s k = some sl ∧ sl.live now = true := by
  unfold liveSlot at h
  cases hs : s k with
  | none => rw [hs] at h; cases h
  | some sl' =>
      rw [hs] at h
      dsimp only at h
      by_cases hl : sl'.live now
      · rw [if_pos hl] at h
        cases h
        exact ⟨rfl, hl⟩
      · rw [if_neg hl] at h; cases h

theorem live_of_pos (now r : Int) (v : RVal) (hr : 0 < r) :
    Slot.live now ⟨v, some (now + r)⟩ = true := by
  simp [Slot.live]
  omega

theorem applyCmd_ne (now : Int) (s : StoreMap) (c : Cmd) (k : Key)
    (h : k ≠ c.key) : applyCmd now s c k = s k := by
  cases c with
  | sAdd k' m =>
      simp only [Cmd.key] at h
      simp only [applyCmd]
      cases hls : liveSlot now s k' with
      | none => exact updateStore_ne _ _ _ _ h
      | some sl =>
          rcases sl with ⟨v, e⟩
          cases v with
          | str e' => rfl
          | sset ms => exact updateStore_ne _ _ _ _ h
  | expire k' ttl =>
      simp only [Cmd.key] at h
      simp only [applyCmd]
      cases hls : liveSlot now s k' with
      | none => rfl
      | some sl =>
          dsimp only
          by_cases ht : ttl ≤ 0
          · rw [if_pos ht]; exact updateStore_ne _ _ _ _ h
          · rw [if_neg ht]; exact updateStore_ne _ _ _ _ h
  | del k' =>
      simp only [Cmd.key] at h
      exact updateStore_ne _ _ _ _ h

theorem applyCmds_ne (now : Int) (l : List Cmd) (s : StoreMap) (k : Key)
    (h : ∀ c ∈ l, k ≠ c.key) : applyCmds now l s k = s k := by
  induction l generalizing s with
  | nil => rfl
  | cons c cs ih =>
      simp only [applyCmds]
      rw [ih _ (fun c' hc' => h c' (List.mem_cons_of_mem c hc')),
        applyCmd_ne now s c k (h c (List.mem_cons_self c cs))]

theorem tagCmds_key_mem (pk : Key) (r : Int) (ts : List String) :
    ∀ c ∈ tagCmds pk r ts, ∃ t ∈ ts, c.key = getTagIndexKey t := by
  induction ts with
  | nil => intro c hc; cases hc
  | cons t0 ts ih =>
      intro c hc
      simp only [tagCmds, List.mem_cons] at hc
      rcases hc with rfl | rfl | hc
      · exact ⟨t0, List.mem_cons_self t0 ts, rfl⟩
      · exact ⟨t0, List.mem_cons_self t0 ts, rfl⟩
      · obtain ⟨t, ht, hk⟩ := ih c hc
        exact ⟨t, List.mem_cons_of_mem t0 ht, hk⟩

theorem getTagIndexKey_inj {a b : String}
    (h : getTagIndexKey a = getTagIndexKey b) : a = b := by
  have hd := congrArg String.data h
  simp only [getTagIndexKey, String.data_append] at hd
  exact String.ext (List.append_cancel_left hd)

theorem sAdd_live (now : Int) (s : StoreMap) (k m : Key) :
    ∃ sl, liveSlot now (applyCmd now s (.sAdd k m)) k = some sl := by
  simp only [applyCmd]
  cases hls : liveSlot now s k with
  | none =>
      refine ⟨⟨.sset [m], none⟩, ?_⟩
      simp [liveSlot, updateStore_eq, Slot.live]
  | some sl =>
      rcases sl with ⟨v, e⟩
      obtain ⟨hsk, hlive⟩ := liveSlot_some hls
      cases v with
      | str e' => exact ⟨⟨.str e', e⟩, hls⟩
      | sset ms =>
          refine ⟨⟨.sset (if m ∈ ms then ms else ms ++ [m]), e⟩, ?_⟩
          simp only [liveSlot, updateStore_eq]
          rw [if_pos]
          exact hlive

theorem expire_after_sAdd (now : Int) (s : StoreMap) (k m : Key)
    (r : Int) (hr : 0 < r) :
    ∃ v, applyCmd now (applyCmd now s (.sAdd k m)) (.expire k r) k =
      some ⟨v, some (now + r)⟩ := by
  obtain ⟨sl, hls⟩ := sAdd_live now s k m
  refine ⟨sl.val, ?_⟩
  set s1 := applyCmd now s (.sAdd k m) with hs1
  simp only [applyCmd, hls]
  rw [if_neg (by omega : ¬ r ≤ 0)]
  exact updateStore_eq _ _ _

theorem tagCmds_preserve_entry (now : Int) (pk : Key) (r : Int)
    (ts : List String) (s : StoreMap) (e : CacheEntry) (hr : 0 < r)
    (h : s pk = some ⟨.str e, some (now + r)⟩) :
    applyCmds now (tagCmds pk r ts) s pk =
      some ⟨.str e, some (now + r)⟩ := by
  induction ts generalizing s with
  | nil => exact h
  | cons t0 ts ih =>
      simp only [tagCmds, applyCmds]
      apply ih
      by_cases hk : getTagIndexKey t0 = pk
      · rw [hk]
        have hlive : liveSlot now s pk = some ⟨.str e, some (now + r)⟩ := by
          simp [liveSlot, h, live_of_pos now r (.str e) hr]
        have h1 : applyCmd now s (.sAdd pk pk) = s := by
          simp only [applyCmd, hlive]
        rw [h1]
        simp only [applyCmd, hlive]
        rw [if_neg (by omega : ¬ r ≤ 0)]
        exact updateStore_eq _ _ _
      · rw [applyCmd_ne now _ (.expire (getTagIndexKey t0) r) pk
          (Ne.symm hk),
          applyCmd_ne now s (.sAdd (getTagIndexKey t0) pk) pk
          (Ne.symm hk)]
        exact h

theorem tagCmds_index_expiry (now : Int) (pk : Key) (r : Int)
    (ts : List String) (s : StoreMap) (t : String) (hr : 0 < r)
    (ht : t ∈ ts) :
    ∃ v, applyCmds now (tagCmds pk r ts) s (getTagIndexKey t) =
      some ⟨v, some (now + r)⟩ := by
  induction ts generalizing s with
  | nil => cases ht
  | cons t0 ts ih =>
      simp only [tagCmds, applyCmds]
      by_cases hmem : t ∈ ts
      · exact ih _ hmem
      · have ht0 : t = t0 := by
          rcases List.mem_cons.mp ht with h1 | h1
          · exact h1
          · exact absurd h1 hmem
        subst ht0
        obtain ⟨v, hv⟩ := expire_after_sAdd now s (getTagIndexKey t) pk r hr
        refine ⟨v, ?_⟩
        rw [applyCmds_ne]
        · exact hv
        · intro c hc
          obtain ⟨t', ht', hk⟩ := tagCmds_key_mem pk r ts c hc
          rw [hk]
          intro heq
          exact hmem (by rw [getTagIndexKey_inj heq]; exact ht')

theorem applyCmds_del_none (now : Int) (l : List Cmd) (s : StoreMap)
    (k : Key) (hall : ∀ c ∈ l, ∃ k', c = Cmd.del k') (h : s k = none) :
    applyCmds now l s k = none := by
  induction l generalizing s with
  | nil => exact h
  | cons c cs ih =>
      obtain ⟨k', rfl⟩ := hall c (List.mem_cons_self c cs)
      simp only [applyCmds, applyCmd]
      apply ih _ (fun c' hc' => hall c' (List.mem_cons_of_mem _ hc'))
      by_cases hk : k = k'
      · rw [hk]; exact updateStore_eq _ _ _
      · rw [updateStore_ne _ _ _ _ hk]; exact h

theorem applyCmds_del_mem (now : Int) (l : List Cmd) (s : StoreMap)
    (k : Key) (hall : ∀ c ∈ l, ∃ k', c = Cmd.del k')
    (hmem : Cmd.del k ∈ l) : applyCmds now l s k = none := by
  induction l generalizing s with
  | nil => cases hmem
  | cons c cs ih =>
      rcases List.mem_cons.mp hmem with h1 | h1
      · rw [← h1]
        simp only [applyCmds, applyCmd]
        exact applyCmds_del_none now cs _ k
          (fun c' hc' => hall c' (List.mem_cons_of_mem _ hc'))
          (updateStore_eq _ _ _)
      · simp only [applyCmds]
        exact ih _ (fun c' hc' => hall c' (List.mem_cons_of_mem _ hc')) h1

/-- The store produced by a fault-free connected `set`: the entry is
written with the resolved TTL as expiry, then the tag-index pipeline is
applied. -/
def setResultStore (now : Int) (w : World) (key : Key) (d : CacheData)
    (ctx : TagsField) : StoreMap :=
  applyCmds now (tagCmds (entryKey key) (resolvedTTL d) (normalizeTags ctx))
    (updateStore w.store (entryKey key)
      (some ⟨.str ⟨fixData d, now, normalizeTags ctx⟩,
             some (now + resolvedTTL d)⟩))

theorem set_clean (F : Faults) (now : Int) (w : World) (key : Key)
    (d : CacheData) (ctx : TagsField) (hcl : w.hasClient = true)
    (hco : w.isConnected = true) (hF : ∀ n, F n = false)
    (hr : 0 < resolvedTTL d) :
    (set F now w key d ctx).2.store = setResultStore now w key d ctx ∧
    (set F now w key d ctx).2.isConnected = true ∧
    (set F now w key d ctx).2.hasClient = true := by
  have hc := ensureConnected_conn F w hcl hco
  have hr' : ¬ resolvedTTL d ≤ 0 := by omega
  refine ⟨?_, ?_, ?_⟩ <;>
    simp [set, setBody, hc, hF, hr', catchDefault, setResultStore,
      hcl, hco]

theorem get_clean_none (F : Faults) (now : Int) (w : World) (key : Key)
    (hcl : w.hasClient = true) (hco : w.isConnected = true)
    (hF : ∀ n, F n = false)
    (h : liveRead now w.store (entryKey key) = none) :
    (get F now w key).1 = .ok none := by
  have hc := ensureConnected_conn F w hcl hco
  simp [get, getBody, hc, hF, h, catchDefault]

theorem get_clean_str (F : Faults) (now : Int) (w : World) (key : Key)
    (e : CacheEntry) (hcl : w.hasClient = true)
    (hco : w.isConnected = true) (hF : ∀ n, F n = false)
    (h : liveRead now w.store (entryKey key) = some (.str e)) :
    (get F now w key).1 = .ok (some e) := by
  have hc := ensureConnected_conn F w hcl hco
  simp [get, getBody, hc, hF, h, catchDefault]

theorem revalidate_clean (F : Faults) (now : Int) (w : World)
    (t : String) (ms : List Key) (hcl : w.hasClient = true)
    (hco : w.isConnected = true) (hF : ∀ n, F n = false)
    (hidx : liveRead now w.store (getTagIndexKey t) = some (.sset ms))
    (hne : ms ≠ []) :
    (revalidateTag F now w (.one t)).2.store =
      applyCmds now (ms.map Cmd.del ++ [Cmd.del (getTagIndexKey t)])
        w.store ∧
    (revalidateTag F now w (.one t)).2.isConnected = true ∧
    (revalidateTag F now w (.one t)).2.hasClient = true ∧
    (revalidateTag F now w (.one t)).1 = .ok () := by
  have hc := ensureConnected_conn F w hcl hco
  have hne' : ms.isEmpty = false := by
    cases ms with
    | nil => exact absurd rfl hne
    | cons a as => rfl
  refine ⟨?_, ?_, ?_, ?_⟩ <;>
    simp [revalidateTag, revalidateBody, revalidateLoop, normalizeTags,
      hc, hF, hidx, hne', catchDefault, hcl, hco]

/-- The entry slot written by a fault-free connected `set` with a
positive resolved TTL. -/
theorem set_entry_slot (F : Faults) (now : Int) (w : World) (key : Key)
    (d : CacheData) (ctx : TagsField) (hcl : w.hasClient = true)
    (hco : w.isConnected = true) (hF : ∀ n, F n = false)
    (hr : 0 < resolvedTTL d) :
    (set F now w key d ctx).2.store (entryKey key) =
      some ⟨.str ⟨fixData d, now, normalizeTags ctx⟩,
            some (now + resolvedTTL d)⟩ := by
  obtain ⟨hst, _, _⟩ := set_clean F now w key d ctx hcl hco hF hr
  rw [hst]
  unfold setResultStore
  exact tagCmds_preserve_entry now (entryKey key) (resolvedTTL d)
    (normalizeTags ctx) _ _ hr (updateStore_eq _ _ _)

/-- C1 amended: `set(k, v, {tags: T})` followed immediately by `get(k)`
(store connected, no failures, and the resolved TTL positive) returns an
entry whose tags equal `T` normalized to a list, and whose value is `v`
with its `revalidate` field normalized (`fixData v`): a numeric
`revalidate` is kept, any other `revalidate` is replaced by
`DEFAULT_TTL`, so the value equals `v` itself exactly when
`v.revalidate` was already a number. -/
theorem set_then_get (F : Faults) (now : Int) (w : World) (key : Key)
    (d : CacheData) (ctx : TagsField) (hcl : w.hasClient = true)
    (hco : w.isConnected = true) (hF : ∀ n, F n = false)
    (hr : 0 < resolvedTTL d) :
    (get F now (set F now w key d ctx).2 key).1 =
      .ok (some ⟨fixData d, now, normalizeTags ctx⟩) := by
  obtain ⟨hst, hic, hhc⟩ := set_clean F now w key d ctx hcl hco hF hr
  apply get_clean_str F now _ key _ hhc hic hF
  rw [hst]
  unfold setResultStore
  have h1 := tagCmds_preserve_entry now (entryKey key) (resolvedTTL d)
    (normalizeTags ctx) _ ⟨fixData d, now, normalizeTags ctx⟩ hr
    (updateStore_eq w.store (entryKey key)
      (some ⟨.str ⟨fixData d, now, normalizeTags ctx⟩,
             some (now + resolvedTTL d)⟩))
  simp [liveRead, liveSlot, h1,
    live_of_pos now (resolvedTTL d) _ hr]

/-- Witness for C1 amended: a concrete `set` of a payload with numeric
`revalidate` followed by `get` on a connected empty-store world. -/
theorem set_then_get_witness :
    w0.hasClient = true ∧ w0.isConnected = true ∧
    (∀ n, noFaults n = false) ∧ 0 < resolvedTTL ⟨"v", .num 7⟩ ∧
    (get noFaults 0 (set noFaults 0 w0 "k" ⟨"v", .num 7⟩
        (.one "t")).2 "k").1 =
      .ok (some ⟨fixData ⟨"v", .num 7⟩, 0, normalizeTags (.one "t")⟩) :=
  ⟨rfl, rfl, fun _ => rfl, by decide,
    set_then_get noFaults 0 w0 "k" ⟨"v", .num 7⟩ (.one "t") rfl rfl
      (fun _ => rfl) (by decide)⟩

/-- C2 amended: with the store connected and no failures,
`revalidateTag(t)` deletes every key that is a member of `t`'s live
(unexpired) tag index at call time — a subsequent `get` on any such key
returns absent — and the tag index entry for `t` no longer exists.
Keys previously set with tag `t` are covered exactly when they are still
listed by the live index; the index can expire earlier than a live
member entry (see the counterexample), which is what the original
unconditional claim misses. -/
theorem revalidate_tag_deletes (F : Faults) (now : Int) (w : World)
    (t : String) (ms : List Key) (hcl : w.hasClient = true)
    (hco : w.isConnected = true) (hF : ∀ n, F n = false)
    (hidx : liveRead now w.store (getTagIndexKey t) = some (.sset ms))
    (hne : ms ≠ []) :
    (revalidateTag F now w (.one t)).1 = .ok () ∧
    (∀ k : Key, entryKey k ∈ ms →
      (get F now (revalidateTag F now w (.one t)).2 k).1 = .ok none) ∧
    liveRead now (revalidateTag F now w (.one t)).2.store
      (getTagIndexKey t) = none := by
  obtain ⟨hst, hic, hhc, hok⟩ :=
    revalidate_clean F now w t ms hcl hco hF hidx hne
  have hall : ∀ c ∈ ms.map Cmd.del ++ [Cmd.del (getTagIndexKey t)],
      ∃ k', c = Cmd.del k' := by
    intro c hc
    rcases List.mem_append.mp hc with h1 | h1
    · obtain ⟨k', _, rfl⟩ := List.mem_map.mp h1
      exact ⟨k', rfl⟩
    · rw [List.mem_singleton.mp h1]
      exact ⟨getTagIndexKey t, rfl⟩
  refine ⟨hok, ?_, ?_⟩
  · intro k hk
    apply get_clean_none F now _ k hhc hic hF
    rw [hst]
    have hdel : applyCmds now
        (ms.map Cmd.del ++ [Cmd.del (getTagIndexKey t)]) w.store
        (entryKey k) = none :=
      applyCmds_del_mem now _ _ _ hall
        (List.mem_append.mpr (Or.inl (List.mem_map_of_mem Cmd.del hk)))
    simp [liveRead, liveSlot, hdel]
  · rw [hst]
    have hdel : applyCmds now
        (ms.map Cmd.del ++ [Cmd.del (getTagIndexKey t)]) w.store
        (getTagIndexKey t) = none :=
      applyCmds_del_mem now _ _ _ hall
        (List.mem_append.mpr (Or.inr (List.mem_singleton.mpr rfl)))
    simp [liveRead, liveSlot, hdel]

/-- Witness for C2 amended on a concrete two-entry store: revalidating
`"t1"` deletes its one member `k1` and the index itself. -/
theorem revalidate_tag_deletes_witness :
    wTwoTags.hasClient = true ∧ wTwoTags.isConnected = true ∧
    (∀ n, noFaults n = false) ∧
    liveRead 0 wTwoTags.store (getTagIndexKey "t1") =
      some (.sset ["basechat:k1"]) ∧
    (["basechat:k1"] : List Key) ≠ [] ∧
    (revalidateTag noFaults 0 wTwoTags (.one "t1")).1 = .ok () ∧
    (get noFaults 0 (revalidateTag noFaults 0 wTwoTags
        (.one "t1")).2 "k1").1 = .ok none ∧
    liveRead 0 (revalidateTag noFaults 0 wTwoTags (.one "t1")).2.store
      (getTagIndexKey "t1") = none := by
  have h := revalidate_tag_deletes noFaults 0 wTwoTags "t1"
    ["basechat:k1"] rfl rfl (fun _ => rfl) (by decide) (by decide)
  exact ⟨rfl, rfl, fun _ => rfl, by decide, by decide,
    h.1, h.2.1 "k1" (by decide), h.2.2⟩

/-- C6 amended: on every fault-free connected `set` (with positive
resolved TTL), each touched tag index entry's expiry is refreshed to
exactly the TTL of this newest contributing entry, `now + resolvedTTL`.
This is "at least the TTL of the newest contributing entry", but it is
an unconditional overwrite, so the index CAN expire strictly before an
older, longer-lived entry it indexes (see the counterexample), contrary
to the original claim's second half. -/
theorem tag_index_refresh (F : Faults) (now : Int) (w : World)
    (key : Key) (d : CacheData) (ctx : TagsField) (t : String)
    (hcl : w.hasClient = true) (hco : w.isConnected = true)
    (hF : ∀ n, F n = false) (hr : 0 < resolvedTTL d)
    (ht : t ∈ normalizeTags ctx) :
    ∃ v, (set F now w key d ctx).2.store (getTagIndexKey t) =
      some ⟨v, some (now + resolvedTTL d)⟩ := by
  obtain ⟨hst, _, _⟩ := set_clean F now w key d ctx hcl hco hF hr
  rw [hst]
  exact tagCmds_index_expiry now (entryKey key) (resolvedTTL d)
    (normalizeTags ctx) _ t hr ht

/-- Witness for C6 amended: setting `k1` with TTL 2 and tag `"t"` gives
the index of `"t"` expiry `0 + 2`. -/
theorem tag_index_refresh_witness :
    w0.hasClient = true ∧ w0.isConnected = true ∧
    (∀ n, noFaults n = false) ∧ 0 < resolvedTTL ⟨"p", .num 2⟩ ∧
    "t" ∈ normalizeTags (.one "t") ∧
    ∃ v, (set noFaults 0 w0 "k1" ⟨"p", .num 2⟩ (.one "t")).2.store
        (getTagIndexKey "t") =
      some ⟨v, some (0 + resolvedTTL ⟨"p", .num 2⟩)⟩ :=
  ⟨rfl, rfl, fun _ => rfl, by decide, by decide,
    tag_index_refresh noFaults 0 w0 "k1" ⟨"p", .num 2⟩ (.one "t") "t"
      rfl rfl (fun _ => rfl) (by decide) (by decide)⟩

/-- C7 amended: for a fault-free connected `set`, the effective TTL
applied to the entry is `data.revalidate` whenever it is a number (the
write succeeding when it is positive; the claim's restriction to
positive numbers is wrong — a non-positive number is used as-is and the
write then fails), and the configured default `DEFAULT_TTL` whenever
`data.revalidate` is absent or non-numeric. -/
theorem ttl_resolution (F : Faults) (now : Int) (w : World) (key : Key)
    (d : CacheData) (ctx : TagsField) (hcl : w.hasClient = true)
    (hco : w.isConnected = true) (hF : ∀ n, F n = false) :
    (∀ n : Int, d.revalidate = .num n → 0 < n →
      (set F now w key d ctx).2.store (entryKey key) =
        some ⟨.str ⟨fixData d, now, normalizeTags ctx⟩,
              some (now + n)⟩) ∧
    (d.revalidate = .nonNum ∨ d.revalidate = .absent →
      (set F now w key d ctx).2.store (entryKey key) =
        some ⟨.str ⟨fixData d, now, normalizeTags ctx⟩,
              some (now + DEFAULT_TTL)⟩) := by
  constructor
  · intro n hn hpos
    have hres : resolvedTTL d = n := by simp [resolvedTTL, hn]
    have hr : 0 < resolvedTTL d := by omega
    have h := set_entry_slot F now w key d ctx hcl hco hF hr
    rw [hres] at h
    exact h
  · intro hd
    have hres : resolvedTTL d = DEFAULT_TTL := by
      rcases hd with h1 | h1 <;> simp [resolvedTTL, h1]
    have hr : 0 < resolvedTTL d := by
      rw [hres]; decide
    have h := set_entry_slot F now w key d ctx hcl hco hF hr
    rw [hres] at h
    exact h

/-- Witness for C7 amended, applied at a numeric `revalidate` of 5 and
at an absent `revalidate`. -/
theorem ttl_resolution_witness :
    w0.hasClient = true ∧ w0.isConnected = true ∧
    (∀ n, noFaults n = false) ∧
    (⟨"p", .num 5⟩ : CacheData).revalidate = .num 5 ∧ (0 : Int) < 5 ∧
    (set noFaults 0 w0 "k" ⟨"p", .num 5⟩ (.one "t")).2.store
        (entryKey "k") =
      some ⟨.str ⟨fixData ⟨"p", .num 5⟩, 0, normalizeTags (.one "t")⟩,
            some (0 + 5)⟩ ∧
    (set noFaults 0 w0 "k" dAbs (.one "t")).2.store (entryKey "k") =
      some ⟨.str ⟨fixData dAbs, 0, normalizeTags (.one "t")⟩,
            some (0 + DEFAULT_TTL)⟩ :=
  ⟨rfl, rfl, fun _ => rfl, rfl, by decide,
    (ttl_resolution noFaults 0 w0 "k" ⟨"p", .num 5⟩ (.one "t") rfl rfl
      (fun _ => rfl)).1 5 rfl (by decide),
    (ttl_resolution noFaults 0 w0 "k" dAbs (.one "t") rfl rfl
      (fun _ => rfl)).2 (Or.inr rfl)⟩

/-- C5 amended: a store failure while processing a tag ABORTS the
processing of all remaining tags — the whole tag loop sits inside one
`try`/`catch` — though no error is surfaced to the caller. In
particular, when the failure hits the very first store command (the
`sMembers` of the first tag), the call resolves normally and the store
is left entirely unmodified: no later tag is read and no member is
deleted. -/
theorem revalidate_abort (F : Faults) (now : Int) (w : World)
    (t : String) (rest : List String) (hcl : w.hasClient = true)
    (hco : w.isConnected = true) (hf : F w.tick = true) :
    (revalidateTag F now w (.many (t :: rest))).1 = .ok () ∧
    (revalidateTag F now w (.many (t :: rest))).2.store = w.store := by
  have hc := ensureConnected_conn F w hcl hco
  constructor <;>
    simp [revalidateTag, revalidateBody, revalidateLoop, normalizeTags,
      hc, hf, catchDefault]

/-- Witness for C5 amended at the concrete two-tag store: the failure on
`"t1"` leaves the whole store untouched. -/
theorem revalidate_abort_witness :
    wTwoTags.hasClient = true ∧ wTwoTags.isConnected = true ∧
    faultAt0 wTwoTags.tick = true ∧
    (revalidateTag faultAt0 0 wTwoTags (.many ["t1", "t2"])).1 =
      .ok () ∧
    (revalidateTag faultAt0 0 wTwoTags (.many ["t1", "t2"])).2.store =
      wTwoTags.store :=
  ⟨rfl, rfl, rfl,
    (revalidate_abort faultAt0 0 wTwoTags "t1" ["t2"] rfl rfl rfl).1,
    (revalidate_abort faultAt0 0 wTwoTags "t1" ["t2"] rfl rfl rfl).2⟩

/-! Invariant machinery for C10: every slot the handler ever stores
carries an expiry. -/

/-- Every present slot has an expiry assigned. -/
def StoreInv (s : StoreMap) : Prop :=
  ∀ k sl, s k = some sl → sl.expireAt ≠ none

theorem storeInv_update_some (s : StoreMap) (k : Key) (v : RVal)
    (e : Int) (h : StoreInv s) :
    StoreInv (updateStore s k (some ⟨v, some e⟩)) := by
  intro k' sl' h'
  by_cases hk : k' = k
  · rw [hk, updateStore_eq] at h'
    cases h'
    simp
  · rw [updateStore_ne _ _ _ _ hk] at h'
    exact h k' sl' h'

theorem storeInv_update_none (s : StoreMap) (k : Key) (h : StoreInv s) :
    StoreInv (updateStore s k none) := by
  intro k' sl' h'
  by_cases hk : k' = k
  · rw [hk, updateStore_eq] at h'
    cases h'
  · rw [updateStore_ne _ _ _ _ hk] at h'
    exact h k' sl' h'

/-- One `sAdd`/`expire` pair of the `set` pipeline preserves the
invariant: the `sAdd` may create a set slot without expiry, but the
immediately following `expire` on the same key either stamps an expiry
or (non-positive ttl) deletes the key. -/
theorem storeInv_pair (now : Int) (s : StoreMap) (k m : Key) (r : Int)
    (h : StoreInv s) :
    StoreInv (applyCmd now (applyCmd now s (.sAdd k m)) (.expire k r)) := by
  obtain ⟨sl, hls⟩ := sAdd_live now s k m
  set s1 := applyCmd now s (.sAdd k m) with hs1
  intro k' sl' h'
  by_cases hk : k' = k
  · subst hk
    simp only [applyCmd, hls] at h'
    by_cases hr : r ≤ 0
    · rw [if_pos hr, updateStore_eq] at h'
      cases h'
    · rw [if_neg hr, updateStore_eq] at h'
      cases h'
      simp
  · rw [applyCmd_ne now s1 (.expire k r) k' hk] at h'
    have hs1k : s1 k' = s k' := applyCmd_ne now s (.sAdd k m) k' hk
    rw [hs1k] at h'
    exact h k' sl' h'

theorem storeInv_tagCmds (now : Int) (pk : Key) (r : Int)
    (ts : List String) (s : StoreMap) (h : StoreInv s) :
    StoreInv (applyCmds now (tagCmds pk r ts) s) := by
  induction ts generalizing s with
  | nil => exact h
  | cons t0 ts ih =>
      simp only [tagCmds, applyCmds]
      exact ih _ (storeInv_pair now s (getTagIndexKey t0) pk r h)

theorem storeInv_dels (now : Int) (l : List Cmd) (s : StoreMap)
    (hall : ∀ c ∈ l, ∃ k', c = Cmd.del k') (h : StoreInv s) :
    StoreInv (applyCmds now l s) := by
  induction l generalizing s with
  | nil => exact h
  | cons c cs ih =>
      obtain ⟨k', rfl⟩ := hall c (List.mem_cons_self c cs)
      simp only [applyCmds, applyCmd]
      exact ih _ (fun c' hc' => hall c' (List.mem_cons_of_mem _ hc'))
        (storeInv_update_none s k' h)

theorem del_cmds_all (ms : List Key) (ik : Key) :
    ∀ c ∈ ms.map Cmd.del ++ [Cmd.del ik], ∃ k', c = Cmd.del k' := by
  intro c hc
  rcases List.mem_append.mp hc with h1 | h1
  · obtain ⟨k', _, rfl⟩ := List.mem_map.mp h1
    exact ⟨k', rfl⟩
  · rw [List.mem_singleton.mp h1]
    exact ⟨ik, rfl⟩

theorem getBody_store (F : Faults) (now : Int) (w : World) (key : Key) :
    (getBody F now w key).2.store = w.store := by
  rcases hEC : ensureConnected F w with ⟨b, w1⟩
  have hw1 : w1.store = w.store := by
    have h := ensureConnected_store F w
    rw [hEC] at h
    exact h
  cases b
  · simp [getBody, hEC, hw1]
  · by_cases hf : F w1.tick
    · simp [getBody, hEC, hf, hw1]
    · cases hlr : liveRead now w.store (entryKey key) with
      | none => simp [getBody, hEC, hf, hlr, hw1]
      | some v =>
          cases v with
          | sset ms => simp [getBody, hEC, hf, hlr, hw1]
          | str e =>
              by_cases hf2 : F (w1.tick + 1)
              · simp [getBody, hEC, hf, hlr, hf2, hw1]
              · simp [getBody, hEC, hf, hlr, hf2, hw1]

theorem get_store (F : Faults) (now : Int) (w : World) (key : Key) :
    (get F now w key).2.store = w.store := by
  rw [get, catchDefault_world]
  exact getBody_store F now w key

theorem setBody_inv (F : Faults) (now : Int) (w : World) (key : Key)
    (d : CacheData) (ctx : TagsField) (h : StoreInv w.store) :
    StoreInv (setBody F now w key d ctx).2.store := by
  rcases hEC : ensureConnected F w with ⟨b, w1⟩
  have hw1 : w1.store = w.store := by
    have h2 := ensureConnected_store F w
    rw [hEC] at h2
    exact h2
  have h1 : StoreInv w1.store := by rw [hw1]; exact h
  cases b
  · have hs : (setBody F now w key d ctx).2.store = w1.store := by
      simp [setBody, hEC]
    rw [hs]; exact h1
  · by_cases hf1 : F w1.tick
    · have hs : (setBody F now w key d ctx).2.store = w1.store := by
        simp [setBody, hEC, hf1]
      rw [hs]; exact h1
    · by_cases hf2 : F (w1.tick + 1)
      · have hs : (setBody F now w key d ctx).2.store = w1.store := by
          simp [setBody, hEC, hf1, hf2]
        rw [hs]; exact h1
      · by_cases httl : resolvedTTL d ≤ 0
        · have hs : (setBody F now w key d ctx).2.store = w1.store := by
            simp [setBody, hEC, hf1, hf2, httl]
          rw [hs]; exact h1
        · by_cases hf3 : F (w1.tick + 1 + 1)
          · have hs : (setBody F now w key d ctx).2.store =
                updateStore w1.store (entryKey key)
                  (some ⟨.str ⟨fixData d, now, normalizeTags ctx⟩,
                         some (now + resolvedTTL d)⟩) := by
              simp [setBody, hEC, hf1, hf2, httl, hf3]
            rw [hs]
            exact storeInv_update_some _ _ _ _ h1
          · have hs : (setBody F now w key d ctx).2.store =
                applyCmds now
                  (tagCmds (entryKey key) (resolvedTTL d)
                    (normalizeTags ctx))
                  (updateStore w1.store (entryKey key)
                    (some ⟨.str ⟨fixData d, now, normalizeTags ctx⟩,
                           some (now + resolvedTTL d)⟩)) := by
              simp [setBody, hEC, hf1, hf2, httl, hf3]
            rw [hs]
            exact storeInv_tagCmds _ _ _ _ _
              (storeInv_update_some _ _ _ _ h1)

theorem set_inv (F : Faults) (now : Int) (w : World) (key : Key)
    (d : CacheData) (ctx : TagsField) (h : StoreInv w.store) :
    StoreInv (set F now w key d ctx).2.store := by
  rw [set, catchDefault_world]
  exact setBody_inv F now w key d ctx h

theorem revalidateLoop_inv (F : Faults) (now : Int) (ts : List String) :
    ∀ w : World, StoreInv w.store →
      StoreInv (revalidateLoop F now ts w).2.store := by
  induction ts with
  | nil => intro w h; exact h
  | cons t rest ih =>
      intro w h
      by_cases hf1 : F w.tick
      · have hs : (revalidateLoop F now (t :: rest) w).2.store =
            w.store := by
          simp [revalidateLoop, hf1]
        rw [hs]; exact h
      · cases hlr : liveRead now w.store (getTagIndexKey t) with
        | none =>
            have hs : revalidateLoop F now (t :: rest) w =
                revalidateLoop F now rest { w with tick := w.tick + 1 } := by
              simp [revalidateLoop, hf1, hlr]
            rw [hs]
            exact ih _ h
        | some v =>
            cases v with
            | str e =>
                have hs : (revalidateLoop F now (t :: rest) w).2.store =
                    w.store := by
                  simp [revalidateLoop, hf1, hlr]
                rw [hs]; exact h
            | sset ms =>
                by_cases hms : ms.isEmpty
                · have hs : revalidateLoop F now (t :: rest) w =
                      revalidateLoop F now rest
                        { w with tick := w.tick + 1 } := by
                    simp [revalidateLoop, hf1, hlr, hms]
                  rw [hs]
                  exact ih _ h
                · by_cases hf2 : F (w.tick + 1)
                  · have hs : (revalidateLoop F now
                        (t :: rest) w).2.store = w.store := by
                      simp [revalidateLoop, hf1, hlr, hms, hf2]
                    rw [hs]; exact h
                  · have hs : revalidateLoop F now (t :: rest) w =
                        revalidateLoop F now rest
                          { w with tick := w.tick + 1 + 1, store :=
                            applyCmds now (ms.map Cmd.del ++
                              [Cmd.del (getTagIndexKey t)]) w.store } := by
                      simp [revalidateLoop, hf1, hlr, hms, hf2]
                    rw [hs]
                    exact ih _ (storeInv_dels now _ _
                      (del_cmds_all ms (getTagIndexKey t)) h)

theorem revalidateTag_inv (F : Faults) (now : Int) (w : World)
    (ts : TagsField) (h : StoreInv w.store) :
    StoreInv (revalidateTag F now w ts).2.store := by
  rw [revalidateTag, catchDefault_world]
  rcases hEC : ensureConnected F w with ⟨b, w1⟩
  have hw1 : w1.store = w.store := by
    have h2 := ensureConnected_store F w
    rw [hEC] at h2
    exact h2
  have h1 : StoreInv w1.store := by rw [hw1]; exact h
  cases b
  · have hs : (revalidateBody F now w ts).2.store = w1.store := by
      simp [revalidateBody, hEC]
    rw [hs]; exact h1
  · have hs : revalidateBody F now w ts =
        revalidateLoop F now (normalizeTags ts) w1 := by
      simp [revalidateBody, hEC]
    rw [hs]
    exact revalidateLoop_inv F now _ w1 h1

/-- C10: every store key written by `set` — the entry key and each
touched tag index key — is assigned a finite expiry (the resolved TTL)
in the same call, and no operation of the handler ever introduces a
store key without an expiry: the invariant that every present slot
carries an expiry is preserved by `set`, `get` and `revalidateTag`
under every fault pattern. -/
theorem writes_always_have_ttl (F : Faults) (now : Int) (w : World)
    (key : Key) (d : CacheData) (ctx ts : TagsField) :
    (StoreInv w.store →
      StoreInv (set F now w key d ctx).2.store ∧
      StoreInv (get F now w key).2.store ∧
      StoreInv (revalidateTag F now w ts).2.store) ∧
    (w.hasClient = true → w.isConnected = true → (∀ n, F n = false) →
      0 < resolvedTTL d →
      (set F now w key d ctx).2.store (entryKey key) =
        some ⟨.str ⟨fixData d, now, normalizeTags ctx⟩,
              some (now + resolvedTTL d)⟩ ∧
      ∀ t ∈ normalizeTags ctx, ∃ v,
        (set F now w key d ctx).2.store (getTagIndexKey t) =
          some ⟨v, some (now + resolvedTTL d)⟩) := by
  constructor
  · intro h
    refine ⟨set_inv F now w key d ctx h, ?_,
      revalidateTag_inv F now w ts h⟩
    rw [get_store F now w key]
    exact h
  · intro hcl hco hF hr
    obtain ⟨hst, _, _⟩ := set_clean F now w key d ctx hcl hco hF hr
    refine ⟨set_entry_slot F now w key d ctx hcl hco hF hr, ?_⟩
    intro t ht
    rw [hst]
    exact tagCmds_index_expiry now (entryKey key) (resolvedTTL d)
      (normalizeTags ctx) _ t hr ht

/-- Witness for C10 at a concrete connected world over the empty store. -/
theorem writes_always_have_ttl_witness :
    StoreInv w0.store ∧
    (StoreInv (set noFaults 0 w0 "k" dAbs (.one "t")).2.store ∧
     StoreInv (get noFaults 0 w0 "k").2.store ∧
     StoreInv (revalidateTag noFaults 0 w0 (.one "t")).2.store) ∧
    ((set noFaults 0 w0 "k" dAbs (.one "t")).2.store (entryKey "k") =
        some ⟨.str ⟨fixData dAbs, 0, normalizeTags (.one "t")⟩,
              some (0 + resolvedTTL dAbs)⟩ ∧
     ∀ t ∈ normalizeTags (.one "t"), ∃ v,
       (set noFaults 0 w0 "k" dAbs (.one "t")).2.store
           (getTagIndexKey t) =
         some ⟨v, some (0 + resolvedTTL dAbs)⟩) := by
  have hinv : StoreInv w0.store := by
    intro k sl hk
    simp [w0, emptyStore] at hk
  have h := writes_always_have_ttl noFaults 0 w0 "k" dAbs
    (.one "t") (.one "t")
  exact ⟨hinv, h.1 hinv, h.2 rfl rfl (fun _ => rfl) (by decide)⟩

end Basechat
